import Mathlib

/-!
Verification of the strapi admin-panel request helper
(`packages/strapi-helper-plugin/lib/src/utils/request.js`).

The JavaScript module is promise-based and single-threaded; we embed it
shallowly: each asynchronous step becomes a pure Lean function returning
the list of externally visible events it performs (fetches, navigation,
storage clearing, lock/unlock signals, delays) together with the final
outcome of the promise chain.  External collaborators (the `auth` token
store, the `strapi` host globals, the network) are parameters or oracles.
-/

namespace StrapiRequest

/-- The parsed JSON body of a response, kept abstract (the helper never
inspects its structure). -/
abbrev JBody := String

/-- A network response as observed by the helper: HTTP status, status
text, whether it exposes a `json` method, the value `response.json()`
would parse to, and the `payload` attribute that the error path of
`checkStatus` mutates onto the response object (absent on arrival). -/
structure Resp where
  status : Nat
  statusText : String
  hasJson : Bool
  body : JBody
  payload : Option JBody := none
  deriving Repr, DecidableEq

/-- The content of a resolved health-check response.  The server-restart
watcher receives it but (per claim C10) never looks inside. -/
structure HealthResp where
  hstatus : Nat
  deriving Repr, DecidableEq

/-- Externally visible events performed while a promise chain runs. -/
inductive Event where
  | fetchUserMe (url : String) (authHeader : String)
  | navigate (url : String)
  | clearAppStorage
  | lockApp
  | unlockApp
  | healthFetch (url : String)
  | delay (ms : Nat)
  deriving Repr, DecidableEq

/-- The external environment: the `auth` token store's current token
(`none` models a `null` token) and the `strapi` host globals. -/
structure Env where
  token : Option String
  backendURL : String
  remoteURL : String

/-- JavaScript truthiness of `auth.getToken()`: a token is present when
it is neither `null` nor the empty string. -/
def tokenTruthy : Option String → Bool
  | none => false
  | some t => t ≠ ""

/-- Outcome of the `checkStatus` promise chain.  `ok` is a resolution
with the response; `httpError` is a rejection with the enriched error
(`message`, and the original response carrying `payload`); `typeError`
is the synchronous `TypeError` thrown when `.then` is called on a
non-thenable; `networkError` is a propagated `fetch` rejection;
`jsUndefined` is the `undefined` returned when `checkTokenValidity`
falls off its body (unreachable from `checkStatus`). -/
inductive Outcome where
  | ok (r : Resp)
  | httpError (message : String) (response : Resp)
  | typeError
  | networkError
  | jsUndefined
  deriving Repr, DecidableEq

/-- `parseJSON(response)`: if the response exposes a `json` method the
chain continues with the parsed body, otherwise with the raw response
object itself. -/
inductive Parsed where
  | json (v : JBody)
  | raw (r : Resp)
  deriving Repr, DecidableEq

/-- `parseJSON` from the source: `response.json ? response.json() : response`. -/
def parseJSON (r : Resp) : Parsed :=
  if r.hasJson then Parsed.json r.body else Parsed.raw r

/-- The generic error path of `checkStatus` (lines 31-36 of the source):
`parseJSON(response).then(responseFormatted => { throw error })`.  When
the response has a `json` method this rejects with the enriched error;
otherwise `parseJSON` returned the raw (non-thenable) response object
and the `.then` call throws a `TypeError`. -/
def errorPath (r : Resp) : Outcome :=
  if r.hasJson then
    Outcome.httpError r.statusText { r with payload := some r.body }
  else
    Outcome.typeError

/-- `checkStatus(response, false)`: the re-invocation performed at the
end of `checkTokenValidity`.  With `checkToken = false` the 401 branch
cannot be entered, so only the 2xx pass-through and the generic error
path remain. -/
def checkStatusFalse (r : Resp) : List Event × Outcome :=
  if 200 ≤ r.status ∧ r.status < 300 then ([], Outcome.ok r)
  else ([], errorPath r)

/-- `checkTokenValidity(response)` (lines 39-60): re-read the token,
issue a GET to `<backendURL>/user/me` with a bearer header; when that
fetch resolves (`userMeResolves = true`) and the original response's
status is 401, navigate to the login URL and clear app storage, then
re-invoke `checkStatus` with `checkToken = false`.  When the fetch
rejects, the `.then` callback never runs and the rejection propagates.
When the token is falsy the function returns `undefined`. -/
def checkTokenValidity (env : Env) (userMeResolves : Bool) (r : Resp) :
    List Event × Outcome :=
  match env.token, tokenTruthy env.token with
  | some t, true =>
    if userMeResolves then
      let navEvents :=
        if r.status = 401 then
          [Event.navigate (env.remoteURL ++ "/plugins/users-permissions/auth/login"),
           Event.clearAppStorage]
        else []
      let rest := checkStatusFalse r
      (Event.fetchUserMe (env.backendURL ++ "/user/me") ("Bearer " ++ t) ::
         navEvents ++ rest.1,
       rest.2)
    else
      ([Event.fetchUserMe (env.backendURL ++ "/user/me") ("Bearer " ++ t)],
       Outcome.networkError)
  | _, _ => ([], Outcome.jsUndefined)

/-- `checkStatus(response, checkToken)` (lines 22-37): pass 2xx through
unchanged; on a 401 with a truthy token and `checkToken` set, delegate
to `checkTokenValidity`; otherwise take the generic error path. -/
def checkStatus (env : Env) (userMeResolves : Bool) (r : Resp)
    (checkToken : Bool) : List Event × Outcome :=
  if 200 ≤ r.status ∧ r.status < 300 then ([], Outcome.ok r)
  else if r.status = 401 ∧ tokenTruthy env.token ∧ checkToken then
    checkTokenValidity env userMeResolves r
  else ([], errorPath r)

/-- `serverRestartWatcher(response)` (lines 79-101), driven by an oracle
listing the outcome of each successive HEAD fetch of
`<backendURL>/_health`: `some h` means the fetch resolved (with health
response `h`), `none` means it rejected.  On a resolution the watcher
calls `strapi.unlockApp()` and resolves with the value it was given; on
a rejection it waits 100 ms and retries.  The real loop is unbounded;
an exhausted oracle yields `none` (the promise is still pending). -/
def serverRestartWatcher {α : Type} (env : Env) :
    List (Option HealthResp) → α → List Event × Option α
  | [], _ => ([], none)
  | some _ :: _, v =>
    ([Event.healthFetch (env.backendURL ++ "/_health"), Event.unlockApp], some v)
  | none :: rest, v =>
    let next := serverRestartWatcher env rest v
    (Event.healthFetch (env.backendURL ++ "/_health") :: Event.delay 100 :: next.1,
     next.2)

/-- A JavaScript object with string keys, as a partial map. -/
abbrev JSObj := String → Option String

/-- The empty object, and the object `undefined` behaves as under
`Object.assign` (contributes no keys). -/
def emptyObj : JSObj := fun _ => none

/-- Object literal from a key-value list (later bindings win, as in a
literal with duplicate keys). -/
def mkObj : List (String × String) → JSObj
  | [] => emptyObj
  | (k, v) :: rest => fun q => if q = k then
      match mkObj rest q with
      | some w => some w
      | none => some v
    else mkObj rest q

/-- `Object.assign(base, extra)`: keys of `extra` override `base`. -/
def jsAssign (base extra : JSObj) : JSObj :=
  fun k => match extra k with
    | some v => some v
    | none => base k

/-- Header normalization step (lines 113-119): when `options.headers` is
absent, set it to `Object.assign({'Content-Type': 'application/json'},
options.headers, {'X-Forwarded-Host': 'strapi'})` — the middle argument
is the still-undefined `options.headers`.  When headers were supplied,
this step leaves them untouched. -/
def setDefaultHeaders (headers : Option JSObj) : JSObj :=
  match headers with
  | none =>
    jsAssign (jsAssign (mkObj [("Content-Type", "application/json")]) emptyObj)
      (mkObj [("X-Forwarded-Host", "strapi")])
  | some hs => hs

/-- Authorization injection (lines 121-127): when the token is truthy,
`options.headers = Object.assign({'Authorization': 'Bearer ' + token},
options.headers)` — the existing headers are the overriding argument. -/
def injectAuthHeader (token : Option String) (hs : JSObj) : JSObj :=
  match token, tokenTruthy token with
  | some t, true => jsAssign (mkObj [("Authorization", "Bearer " ++ t)]) hs
  | _, _ => hs

/-- The headers `request` dispatches, given the token and the
caller-supplied `options.headers`. -/
def requestHeaders (token : Option String) (headers : Option JSObj) : JSObj :=
  injectAuthHeader token (setDefaultHeaders headers)

/-- Characters `encodeURIComponent` leaves as-is: alphanumerics and
`- _ . ! ~ * ' ( )`. -/
def isURIUnescaped (c : Char) : Bool :=
  c.isAlphanum ||
    c = '-' || c = '_' || c = '.' || c = '!' || c = '~' || c = '*' ||
    c = '\'' || c = '(' || c = ')'

/-- Upper-case hexadecimal digit of a value below 16. -/
def hexDigit (n : Nat) : Char :=
  if n < 10 then Char.ofNat (48 + n) else Char.ofNat (55 + n)

/-- UTF-8 bytes of a character, as numbers below 256. -/
def utf8Bytes (c : Char) : List Nat :=
  let n := c.toNat
  if n < 0x80 then [n]
  else if n < 0x800 then
    [0xC0 + n / 64, 0x80 + n % 64]
  else if n < 0x10000 then
    [0xE0 + n / 4096, 0x80 + n / 64 % 64, 0x80 + n % 64]
  else
    [0xF0 + n / 262144, 0x80 + n / 4096 % 64, 0x80 + n / 64 % 64, 0x80 + n % 64]

/-- Percent-escape of one byte: `%XX`. -/
def percentByte (b : Nat) : String :=
  String.mk ['%', hexDigit (b / 16 % 16), hexDigit (b % 16)]

/-- `encodeURIComponent`: unescaped characters pass through, every other
character is replaced by the percent-escapes of its UTF-8 bytes. -/
def encodeURIComponent (s : String) : String :=
  String.join (s.toList.map fun c =>
    if isURIUnescaped c then String.mk [c]
    else String.join ((utf8Bytes c).map percentByte))

/-- `formatQueryParams` (lines 68-72): one `key=value` pair per entry of
the params object (entries in insertion order), both sides encoded with
`encodeURIComponent`, joined by `&`. -/
def formatQueryParams (params : List (String × String)) : String :=
  String.intercalate "&"
    (params.map fun p => encodeURIComponent p.1 ++ "=" ++ encodeURIComponent p.2)

/-- `_.startsWith(s, target)` from lodash: whether `s` begins with
`target`. -/
def jsStartsWith (s target : String) : Bool :=
  List.isPrefixOf target.data s.data

/-- URL normalization (lines 129-135): a url starting with `/` is
prefixed with `strapi.backendURL`; a present `options.params` appends
`?` and the formatted query string. -/
def buildURL (backendURL url : String) (params : Option (List (String × String))) :
    String :=
  let u := if jsStartsWith url "/" then backendURL ++ url else url
  match params with
  | none => u
  | some ps => u ++ "?" ++ formatQueryParams ps

/-- A `File` object as used by the upload widget: the network payload is
opaque, `caption` is the attribute the transform reads (the string
`FormData.append` coerces it to). -/
structure FileObj where
  name : String
  caption : String
  deriving Repr, DecidableEq

/-- A FormData value: `FormData.append` stores either a string or a
`File`; only `File` values satisfy `instanceof File`. -/
inductive FDValue where
  | str (s : String)
  | file (f : FileObj)
  deriving Repr, DecidableEq

/-- `v instanceof File`. -/
def FDValue.isFile : FDValue → Bool
  | FDValue.file _ => true
  | FDValue.str _ => false

/-- A FormData body: its entries in insertion order. -/
abbrev FormBody := List (String × FDValue)

/-- `body.getAll(field)`: all values stored under `field`, in order. -/
def getAll (body : FormBody) (field : String) : List FDValue :=
  (body.filter fun p => p.1 = field).map fun p => p.2

/-- `Array.from(new Set(xs))`: deduplication keeping first occurrences. -/
def dedupKeepFirst (seen : List String) : List String → List String
  | [] => []
  | x :: xs =>
    if x ∈ seen then dedupKeepFirst seen xs
    else x :: dedupKeepFirst (x :: seen) xs

/-- First loop of the `stringify = false` branch (part_000 lines
147-152): the names of entries whose value is `instanceof File`, in
entry order. -/
def fileFieldNames (body : FormBody) : List String :=
  (body.filter fun p => p.2.isFile).map fun p => p.1

/-- Inner loop of the transform: for one field, walk
`options.body.getAll(field)` of the current body and append
`<field>Captions` with the caption of each `File` entry. -/
def appendCaptionsFor (body : FormBody) (field : String) : FormBody :=
  (getAll body field).foldl
    (fun b v =>
      match v with
      | FDValue.file f => b ++ [(field ++ "Captions", FDValue.str f.caption)]
      | FDValue.str _ => b)
    body

/-- The whole `stringify = false` body transform (part_000 lines
142-164): collect the file-bearing field names, deduplicate them, and
for each such field append one `<field>Captions` entry per `File` entry
of that field. -/
def addCaptions (body : FormBody) : FormBody :=
  (dedupKeepFirst [] (fileFieldNames body)).foldl appendCaptionsFor body

/-- The caption entry that processing field `f` appends for one value
of `getAll(f)`: a `<f>Captions` entry for a `File`, nothing for a
string. -/
def captionOfEntry (f : String) : FDValue → Option (String × FDValue)
  | FDValue.file g => some (f ++ "Captions", FDValue.str g.caption)
  | FDValue.str _ => none

/-- Just the appended caption value of one entry: the caption of a
`File`, nothing for a string. -/
def captionValue : FDValue → Option FDValue
  | FDValue.file g => some (FDValue.str g.caption)
  | FDValue.str _ => none

/-- All caption entries that processing field `f` appends, read off a
given body state. -/
def fileCaptionEntries (body : FormBody) (f : String) : FormBody :=
  (getAll body f).filterMap (captionOfEntry f)

/-- Final result of the whole `request` promise chain.  `pending` is a
model artifact: the health-check oracle ran out while the unbounded
polling loop was still retrying. -/
inductive FinalResult where
  | ok (v : Parsed)
  | httpError (message : String) (response : Resp)
  | typeError
  | networkError
  | jsUndefined
  | pending
  deriving Repr, DecidableEq

/-- The response pipeline of `request` (lines 181-192):
`.then(checkStatus).then(parseJSON)`, then — when
`shouldWatchServerRestart` is set — `strapi.lockApp()` followed by the
server-restart watcher; otherwise resolve with the parsed response. -/
def responsePipeline (env : Env) (userMeResolves : Bool)
    (polls : List (Option HealthResp)) (r : Resp)
    (shouldWatchServerRestart : Bool) : List Event × FinalResult :=
  let checked := checkStatus env userMeResolves r true
  match checked.2 with
  | Outcome.ok r2 =>
    let parsed := parseJSON r2
    if shouldWatchServerRestart then
      let watched := serverRestartWatcher env polls parsed
      (checked.1 ++ Event.lockApp :: watched.1,
       match watched.2 with
       | some v => FinalResult.ok v
       | none => FinalResult.pending)
    else (checked.1, FinalResult.ok parsed)
  | Outcome.httpError m resp => (checked.1, FinalResult.httpError m resp)
  | Outcome.typeError => (checked.1, FinalResult.typeError)
  | Outcome.networkError => (checked.1, FinalResult.networkError)
  | Outcome.jsUndefined => (checked.1, FinalResult.jsUndefined)

/-! Concrete fixtures used to instantiate the theorems below. -/

/-- The event trail of the restart watcher when the first `n` health
fetches reject and the next one resolves. -/
def pollTrail (env : Env) (n : Nat) : List Event :=
  (List.replicate n
      [Event.healthFetch (env.backendURL ++ "/_health"), Event.delay 100]).flatten ++
    [Event.healthFetch (env.backendURL ++ "/_health"), Event.unlockApp]

/-- An environment whose token store holds the token `"tok"`. -/
def envTok : Env :=
  { token := some "tok", backendURL := "http://backend", remoteURL := "http://remote" }

/-- An environment whose token store is empty. -/
def envNoTok : Env :=
  { token := none, backendURL := "http://backend", remoteURL := "http://remote" }

/-- A successful 204 response. -/
def resp204 : Resp :=
  { status := 204, statusText := "No Content", hasJson := true, body := "okbody" }

/-- A failing 404 response with a JSON body. -/
def resp404 : Resp :=
  { status := 404, statusText := "Not Found", hasJson := true, body := "errbody" }

/-- A failing 401 response with a JSON body. -/
def resp401 : Resp :=
  { status := 401, statusText := "Unauthorized", hasJson := true, body := "unauth" }

/-- A failing 404 response that does not expose a `json` method. -/
def resp404raw : Resp :=
  { status := 404, statusText := "Not Found", hasJson := false, body := "raw" }

/-- A body where a non-file field name collides with the companion
caption name of a file field. -/
def bodyCollide : FormBody :=
  [("x", FDValue.file { name := "f", caption := "c" }),
   ("xCaptions", FDValue.str "s")]

/-- A collision-free multipart body with two files under one field and
one plain field. -/
def bodyFiles : FormBody :=
  [("media", FDValue.file { name := "f1", caption := "cap1" }),
   ("note", FDValue.str "hello"),
   ("media", FDValue.file { name := "f2", caption := "cap2" })]

/-- The re-invocation inside `checkTokenValidity` is literally
`checkStatus(response, false)`. -/
theorem checkStatus_false_eq (env : Env) (u : Bool) (r : Resp) :
    checkStatus env u r false = checkStatusFalse r := by
  unfold checkStatus checkStatusFalse
  by_cases h : 200 ≤ r.status ∧ r.status < 300 <;> simp [h]

/-- C1: a response with status in [200,300) passes `checkStatus`
unchanged and the request promise resolves without error; a response
with status outside [200,300) that does not enter the 401-with-token
revalidation branch rejects with an error whose message is the
response's `statusText` and whose `response` attribute is the original
response extended with a `payload` equal to its parsed JSON body. -/
theorem checkStatus_http_contract (env : Env) (u : Bool) (r : Resp) (ct : Bool) :
    (200 ≤ r.status ∧ r.status < 300 →
      checkStatus env u r ct = ([], Outcome.ok r) ∧
      responsePipeline env u [] r false = ([], FinalResult.ok (parseJSON r))) ∧
    (¬(200 ≤ r.status ∧ r.status < 300) →
      ¬(r.status = 401 ∧ tokenTruthy env.token = true ∧ ct = true) →
      r.hasJson = true →
      checkStatus env u r ct =
        ([], Outcome.httpError r.statusText { r with payload := some r.body })) := by
  constructor
  · intro h2
    have hc : ∀ b : Bool, checkStatus env u r b = ([], Outcome.ok r) := by
      intro b; unfold checkStatus; simp [h2]
    refine ⟨hc ct, ?_⟩
    simp [responsePipeline, hc true]
  · intro h2 hnb hjson
    unfold checkStatus
    rw [if_neg h2, if_neg hnb]
    simp [errorPath, hjson]

/-- Witness for C1 at a 204 and a 404 response. -/
theorem checkStatus_http_contract_witness :
    (checkStatus envNoTok true resp204 true = ([], Outcome.ok resp204) ∧
      responsePipeline envNoTok true [] resp204 false =
        ([], FinalResult.ok (parseJSON resp204))) ∧
    checkStatus envNoTok true resp404 true =
      ([], Outcome.httpError resp404.statusText { resp404 with payload := some resp404.body }) :=
  ⟨(checkStatus_http_contract envNoTok true resp204 true).1 (by decide),
   (checkStatus_http_contract envNoTok true resp404 true).2 (by decide) (by decide) rfl⟩

/-- C2: on a 401 response with a truthy stored token and
`checkToken = true`, `checkStatus` issues a GET to
`<backendURL>/user/me` with the stored token as bearer credential; when
that call resolves and the status is still 401, it navigates to
`<remoteURL>/plugins/users-permissions/auth/login`, clears the stored
app state, and the promise still rejects as an HTTP error via
`checkStatus` re-invoked with `checkToken = false`. -/
theorem checkStatus_401_revalidation (env : Env) (t : String) (r : Resp)
    (htok : env.token = some t) (htne : t ≠ "")
    (h401 : r.status = 401) (hjson : r.hasJson = true) :
    checkStatus env true r true =
      (Event.fetchUserMe (env.backendURL ++ "/user/me") ("Bearer " ++ t) ::
         Event.navigate (env.remoteURL ++ "/plugins/users-permissions/auth/login") ::
         Event.clearAppStorage :: (checkStatus env true r false).1,
       (checkStatus env true r false).2) ∧
    checkStatus env true r false =
      ([], Outcome.httpError r.statusText { r with payload := some r.body }) := by
  have htt : tokenTruthy env.token = true := by
    rw [htok]; simp [tokenTruthy, htne]
  have hfalse : checkStatus env true r false =
      ([], Outcome.httpError r.statusText { r with payload := some r.body }) := by
    rw [checkStatus_false_eq]
    unfold checkStatusFalse
    rw [if_neg (by omega : ¬(200 ≤ r.status ∧ r.status < 300))]
    simp [errorPath, hjson]
  refine ⟨?_, hfalse⟩
  rw [checkStatus_false_eq]
  unfold checkStatus
  rw [if_neg (by omega : ¬(200 ≤ r.status ∧ r.status < 300)),
    if_pos ⟨h401, htt, rfl⟩]
  unfold checkTokenValidity
  rw [htok] at htt ⊢
  rw [htt]
  simp [h401]

/-- Witness for C2 at a concrete 401 response and token. -/
theorem checkStatus_401_revalidation_witness :
    checkStatus envTok true resp401 true =
      (Event.fetchUserMe (envTok.backendURL ++ "/user/me") ("Bearer " ++ "tok") ::
         Event.navigate (envTok.remoteURL ++ "/plugins/users-permissions/auth/login") ::
         Event.clearAppStorage :: (checkStatus envTok true resp401 false).1,
       (checkStatus envTok true resp401 false).2) ∧
    checkStatus envTok true resp401 false =
      ([], Outcome.httpError resp401.statusText { resp401 with payload := some resp401.body }) :=
  checkStatus_401_revalidation envTok "tok" resp401 rfl (by decide) rfl rfl

/-- C3 counterexample: when the GET to the current-user endpoint
rejects (`userMeResolves = false`), the `.then` callback of
`checkTokenValidity` never runs: no navigation and no storage clearing
happen, and the promise rejects with the propagated network error, not
with the outcome of re-invoking `checkStatus` with
`checkToken = false`. -/
theorem revalidation_rejection_counterexample :
    checkStatus envTok false resp401 true =
      ([Event.fetchUserMe "http://backend/user/me" "Bearer tok"], Outcome.networkError) ∧
    Outcome.networkError ≠ (checkStatus envTok false resp401 false).2 := by
  constructor
  · decide
  · decide

/-- C3 amended: the resolved value of the GET to the current-user
endpoint is ignored, and when that call resolves the re-check,
navigation, storage clearing and re-invocation of `checkStatus` with
`checkToken = false` happen unconditionally; when the call rejects,
none of them happen and the rejection propagates. -/
theorem checkTokenValidity_resolution_only (env : Env) (t : String) (r : Resp)
    (htok : env.token = some t) (htne : t ≠ "") (h401 : r.status = 401) :
    checkTokenValidity env true r =
      (Event.fetchUserMe (env.backendURL ++ "/user/me") ("Bearer " ++ t) ::
         Event.navigate (env.remoteURL ++ "/plugins/users-permissions/auth/login") ::
         Event.clearAppStorage :: (checkStatus env true r false).1,
       (checkStatus env true r false).2) ∧
    checkTokenValidity env false r =
      ([Event.fetchUserMe (env.backendURL ++ "/user/me") ("Bearer " ++ t)],
       Outcome.networkError) := by
  have htt : tokenTruthy env.token = true := by
    rw [htok]; simp [tokenTruthy, htne]
  constructor
  · unfold checkTokenValidity
    rw [htok] at htt ⊢
    rw [htt, checkStatus_false_eq]
    simp [h401]
  · unfold checkTokenValidity
    rw [htok] at htt ⊢
    rw [htt]
    simp

/-- Witness for the amended C3 at a concrete 401 response and token. -/
theorem checkTokenValidity_resolution_only_witness :
    checkTokenValidity envTok true resp401 =
      (Event.fetchUserMe (envTok.backendURL ++ "/user/me") ("Bearer " ++ "tok") ::
         Event.navigate (envTok.remoteURL ++ "/plugins/users-permissions/auth/login") ::
         Event.clearAppStorage :: (checkStatus envTok true resp401 false).1,
       (checkStatus envTok true resp401 false).2) ∧
    checkTokenValidity envTok false resp401 =
      ([Event.fetchUserMe (envTok.backendURL ++ "/user/me") ("Bearer " ++ "tok")],
       Outcome.networkError) :=
  checkTokenValidity_resolution_only envTok "tok" resp401 rfl (by decide) rfl

/-- C9: on a non-2xx response that skips the 401 revalidation branch
and exposes no `json` method, `parseJSON` returns the raw non-thenable
response object; the `.then` call on it throws a `TypeError`, so the
chain does not reject with the enriched error envelope. -/
theorem checkStatus_nojson_typeError (env : Env) (u : Bool) (r : Resp) (ct : Bool)
    (hst : ¬(200 ≤ r.status ∧ r.status < 300))
    (hnb : ¬(r.status = 401 ∧ tokenTruthy env.token = true ∧ ct = true))
    (hjson : r.hasJson = false) :
    checkStatus env u r ct = ([], Outcome.typeError) ∧
    (checkStatus env u r ct).2 ≠
      Outcome.httpError r.statusText { r with payload := some r.body } := by
  have hc : checkStatus env u r ct = ([], Outcome.typeError) := by
    unfold checkStatus
    rw [if_neg hst, if_neg hnb]
    simp [errorPath, hjson]
  exact ⟨hc, by rw [hc]; simp⟩

/-- Witness for C9 at a concrete 404 response without a `json` method. -/
theorem checkStatus_nojson_typeError_witness :
    checkStatus envNoTok true resp404raw true = ([], Outcome.typeError) ∧
    (checkStatus envNoTok true resp404raw true).2 ≠
      Outcome.httpError resp404raw.statusText
        { resp404raw with payload := some resp404raw.body } :=
  checkStatus_nojson_typeError envNoTok true resp404raw true (by decide) (by decide) rfl

/-- C6: when `options.headers` is absent, the dispatched headers are
the default `Content-Type: application/json` merged with the fixed
`X-Forwarded-Host: strapi` marker and nothing else; when the caller
supplies headers, this step leaves them untouched, so caller-supplied
headers override the defaults. -/
theorem request_default_headers :
    setDefaultHeaders none "Content-Type" = some "application/json" ∧
    setDefaultHeaders none "X-Forwarded-Host" = some "strapi" ∧
    (∀ k : String, k ≠ "Content-Type" → k ≠ "X-Forwarded-Host" →
      setDefaultHeaders none k = none) ∧
    (∀ hs : JSObj, ∀ k : String, setDefaultHeaders (some hs) k = hs k) := by
  refine ⟨rfl, rfl, ?_, fun hs k => rfl⟩
  intro k hct hxfh
  simp [setDefaultHeaders, jsAssign, mkObj, emptyObj, hct, hxfh]

/-- Witness for C6 at a concrete non-default header name and a concrete
caller-supplied header object. -/
theorem request_default_headers_witness :
    setDefaultHeaders none "Accept" = none ∧
    setDefaultHeaders (some (mkObj [("Accept", "text/html")])) "Accept" =
      mkObj [("Accept", "text/html")] "Accept" :=
  ⟨request_default_headers.2.2.1 "Accept" (by decide) (by decide),
   request_default_headers.2.2.2 (mkObj [("Accept", "text/html")]) "Accept"⟩

/-- C7: when the token store yields a truthy token, an
`Authorization: Bearer <token>` header is injected as the base of an
`Object.assign` whose overriding argument is the existing headers, so a
caller-supplied `Authorization` header wins and otherwise the bearer
header is present. -/
theorem request_auth_injection (t : String) (htne : t ≠ "") :
    (∀ hs : JSObj, ∀ a : String, hs "Authorization" = some a →
      requestHeaders (some t) (some hs) "Authorization" = some a) ∧
    (∀ hs : JSObj, hs "Authorization" = none →
      requestHeaders (some t) (some hs) "Authorization" = some ("Bearer " ++ t)) ∧
    requestHeaders (some t) none "Authorization" = some ("Bearer " ++ t) := by
  have htt : tokenTruthy (some t) = true := by simp [tokenTruthy, htne]
  refine ⟨?_, ?_, ?_⟩
  · intro hs a ha
    simp [requestHeaders, injectAuthHeader, htt, setDefaultHeaders, jsAssign, ha]
  · intro hs ha
    simp [requestHeaders, injectAuthHeader, htt, setDefaultHeaders, jsAssign, ha, mkObj,
      emptyObj]
  · simp [requestHeaders, injectAuthHeader, htt, setDefaultHeaders, jsAssign, mkObj,
      emptyObj]

/-- Witness for C7 with the token `"tok"`, a caller-supplied
`Authorization` header, and caller headers lacking one. -/
theorem request_auth_injection_witness :
    requestHeaders (some "tok") (some (mkObj [("Authorization", "custom")]))
      "Authorization" = some "custom" ∧
    requestHeaders (some "tok") (some emptyObj) "Authorization" =
      some ("Bearer " ++ "tok") ∧
    requestHeaders (some "tok") none "Authorization" = some ("Bearer " ++ "tok") :=
  ⟨(request_auth_injection "tok" (by decide)).1 (mkObj [("Authorization", "custom")])
      "custom" rfl,
   (request_auth_injection "tok" (by decide)).2.1 emptyObj rfl,
   (request_auth_injection "tok" (by decide)).2.2⟩

/-- C8: a url starting with `/` is dispatched as the backend base URL
concatenated with that path, any other url is used as-is; when
`options.params` is present the dispatched URL additionally ends with
`?` followed by a query string holding exactly one `key=value` pair per
entry, both sides encoded with `encodeURIComponent`, joined by `&`. -/
theorem request_url_building (backendURL url : String)
    (ps : List (String × String)) (hslash : jsStartsWith url "/" = true) :
    buildURL backendURL url none = backendURL ++ url ∧
    (∀ u2 : String, jsStartsWith u2 "/" = false → buildURL backendURL u2 none = u2) ∧
    buildURL backendURL url (some ps) =
      backendURL ++ url ++ "?" ++ formatQueryParams ps ∧
    formatQueryParams ps =
      String.intercalate "&"
        (ps.map fun p => encodeURIComponent p.1 ++ "=" ++ encodeURIComponent p.2) ∧
    (ps.map fun p => encodeURIComponent p.1 ++ "=" ++ encodeURIComponent p.2).length =
      ps.length := by
  refine ⟨?_, ?_, ?_, rfl, by simp⟩
  · simp [buildURL, hslash]
  · intro u2 h2; simp [buildURL, h2]
  · simp [buildURL, hslash]

/-- Witness for C8 at a concrete path and params object. -/
theorem request_url_building_witness :
    buildURL "http://backend" "/content" none = "http://backend" ++ "/content" ∧
    buildURL "http://backend" "http://absolute" none = "http://absolute" ∧
    buildURL "http://backend" "/content" (some [("a b", "c&d")]) =
      "http://backend" ++ "/content" ++ "?" ++ formatQueryParams [("a b", "c&d")] ∧
    formatQueryParams [("a b", "c&d")] =
      String.intercalate "&"
        ([("a b", "c&d")].map fun p =>
          encodeURIComponent p.1 ++ "=" ++ encodeURIComponent p.2) :=
  ⟨(request_url_building "http://backend" "/content" [("a b", "c&d")] (by decide)).1,
   (request_url_building "http://backend" "/content" [("a b", "c&d")] (by decide)).2.1
     "http://absolute" (by decide),
   (request_url_building "http://backend" "/content" [("a b", "c&d")] (by decide)).2.2.1,
   (request_url_building "http://backend" "/content" [("a b", "c&d")] (by decide)).2.2.2.1⟩

/-- Closed form of the watcher run on an oracle with `n` leading
rejections followed by a resolution. -/
theorem serverRestartWatcher_closed {α : Type} (env : Env) (v : α) (h : HealthResp)
    (rest : List (Option HealthResp)) (n : Nat) :
    serverRestartWatcher env (List.replicate n none ++ some h :: rest) v =
      (pollTrail env n, some v) := by
  induction n with
  | zero => simp [serverRestartWatcher, pollTrail]
  | succ m ih =>
    rw [List.replicate_succ, List.cons_append]
    rw [show serverRestartWatcher env
          (none :: (List.replicate m none ++ some h :: rest)) v =
        (Event.healthFetch (env.backendURL ++ "/_health") :: Event.delay 100 ::
           (serverRestartWatcher env (List.replicate m none ++ some h :: rest) v).1,
         (serverRestartWatcher env (List.replicate m none ++ some h :: rest) v).2)
      from rfl]
    rw [ih]
    simp [pollTrail, List.replicate_succ]

/-- C5: with `shouldWatchServerRestart = true` and a succeeding
response pipeline, `lockApp` fires, the health endpoint is polled with
a 100 ms delay after each rejected poll, the first resolving poll
fires `unlockApp`, the promise resolves with the original parsed
response, the lock/unlock signals each occur exactly once in that
order, and the `n` polling failures never surface to the caller. -/
theorem request_restart_watch (env : Env) (u : Bool) (r : Resp) (n : Nat)
    (h : HealthResp) (rest : List (Option HealthResp))
    (h2xx : 200 ≤ r.status ∧ r.status < 300) :
    responsePipeline env u (List.replicate n none ++ some h :: rest) r true =
      (Event.lockApp :: pollTrail env n, FinalResult.ok (parseJSON r)) ∧
    (Event.lockApp :: pollTrail env n).count Event.lockApp = 1 ∧
    (Event.lockApp :: pollTrail env n).count Event.unlockApp = 1 ∧
    (Event.lockApp :: pollTrail env n).head? = some Event.lockApp ∧
    (Event.lockApp :: pollTrail env n).getLast? = some Event.unlockApp := by
  have hc : checkStatus env u r true = ([], Outcome.ok r) := by
    unfold checkStatus; simp [h2xx]
  refine ⟨?_, ?_, ?_, rfl, ?_⟩
  · simp [responsePipeline, hc, serverRestartWatcher_closed]
  · simp [pollTrail, List.count_cons, List.count_append, List.count_flatten,
      List.map_replicate, List.count_nil]
  · simp [pollTrail, List.count_cons, List.count_append, List.count_flatten,
      List.map_replicate, List.count_nil]
  · show (Event.lockApp :: (_ ++ _)).getLast? = _
    rw [← List.cons_append, List.getLast?_append]
    rfl

/-- Witness for C5: one failed poll, then a resolving one. -/
theorem request_restart_watch_witness :
    responsePipeline envNoTok true
        (List.replicate 1 none ++ some ⟨200⟩ :: []) resp204 true =
      (Event.lockApp :: pollTrail envNoTok 1, FinalResult.ok (parseJSON resp204)) ∧
    (Event.lockApp :: pollTrail envNoTok 1).count Event.lockApp = 1 ∧
    (Event.lockApp :: pollTrail envNoTok 1).count Event.unlockApp = 1 ∧
    (Event.lockApp :: pollTrail envNoTok 1).head? = some Event.lockApp ∧
    (Event.lockApp :: pollTrail envNoTok 1).getLast? = some Event.unlockApp :=
  request_restart_watch envNoTok true resp204 1 ⟨200⟩ [] (by decide)

/-- C10: the restart watcher never inspects a health response's
content: two oracles resolving and rejecting at the same positions
produce identical runs whatever the resolved health responses carry,
and a resolving poll always fires `unlockApp` and resolves with the
original value regardless of the health response's status. -/
theorem serverRestartWatcher_ignores_health_content (env : Env) (v : Parsed)
    (polls polls2 : List (Option HealthResp)) (h : HealthResp)
    (rest : List (Option HealthResp))
    (hsame : polls.map Option.isSome = polls2.map Option.isSome) :
    serverRestartWatcher env polls v = serverRestartWatcher env polls2 v ∧
    serverRestartWatcher env (some h :: rest) v =
      ([Event.healthFetch (env.backendURL ++ "/_health"), Event.unlockApp], some v) := by
  refine ⟨?_, rfl⟩
  induction polls generalizing polls2 with
  | nil =>
    cases polls2 with
    | nil => rfl
    | cons b bs => simp at hsame
  | cons a as ih =>
    cases polls2 with
    | nil => simp at hsame
    | cons b bs =>
      simp only [List.map_cons, List.cons.injEq] at hsame
      obtain ⟨h1, h2⟩ := hsame
      cases a <;> cases b
      · simp [serverRestartWatcher, ih bs h2]
      · simp at h1
      · simp at h1
      · rfl

/-- Witness for C10: the same run for a 500 and a 204 health response,
and an immediate unlock on a resolving first poll. -/
theorem serverRestartWatcher_ignores_health_content_witness :
    serverRestartWatcher envNoTok [some ⟨500⟩] (Parsed.json "b") =
      serverRestartWatcher envNoTok [some ⟨204⟩] (Parsed.json "b") ∧
    serverRestartWatcher envNoTok (some ⟨500⟩ :: []) (Parsed.json "b") =
      ([Event.healthFetch (envNoTok.backendURL ++ "/_health"), Event.unlockApp],
       some (Parsed.json "b")) :=
  serverRestartWatcher_ignores_health_content envNoTok (Parsed.json "b")
    [some ⟨500⟩] [some ⟨204⟩] ⟨500⟩ [] rfl

/-- Unrolling of the inner loop of the body transform: processing one
field appends exactly its caption entries at the end of the body. -/
theorem appendCaptionsFor_eq (b : FormBody) (f : String) :
    appendCaptionsFor b f = b ++ fileCaptionEntries b f := by
  unfold appendCaptionsFor fileCaptionEntries
  generalize getAll b f = l
  induction l generalizing b with
  | nil => simp
  | cons v vs ih => cases v <;> simp [captionOfEntry, ih]

/-- A list of string-valued entries contributes no caption entries. -/
theorem filterMap_captionOfEntry_allStr (f : String) (l : List FDValue)
    (h : ∀ v ∈ l, v.isFile = false) :
    l.filterMap (captionOfEntry f) = [] := by
  induction l with
  | nil => rfl
  | cons v vs ih =>
    cases v with
    | str a =>
      simp only [List.filterMap_cons, captionOfEntry]
      exact ih fun w hw => h w (by simp [hw])
    | file g =>
      have hv := h (FDValue.file g) (by simp)
      simp [FDValue.isFile] at hv

/-- `getAll` distributes over appending bodies. -/
theorem getAll_append (a b : FormBody) (f : String) :
    getAll (a ++ b) f = getAll a f ++ getAll b f := by
  simp [getAll, List.filter_append]

/-- Unrolling of `getAll` on one entry. -/
theorem getAll_cons (p : String × FDValue) (l : FormBody) (k : String) :
    getAll (p :: l) k = if p.1 = k then p.2 :: getAll l k else getAll l k := by
  unfold getAll
  rw [List.filter_cons]
  by_cases h : p.1 = k <;> simp [h]

/-- The values stored in an all-string body are all strings. -/
theorem getAll_values_allStr (extra : FormBody) (f : String)
    (h : ∀ p ∈ extra, p.2.isFile = false) :
    ∀ v ∈ getAll extra f, v.isFile = false := by
  intro v hv
  unfold getAll at hv
  rw [List.mem_map] at hv
  obtain ⟨p, hp, rfl⟩ := hv
  exact h p (List.mem_of_mem_filter hp)

/-- Appending string-valued entries to a body does not change the
caption entries any field contributes. -/
theorem fileCaptionEntries_append_allStr (b extra : FormBody) (f : String)
    (h : ∀ p ∈ extra, p.2.isFile = false) :
    fileCaptionEntries (b ++ extra) f = fileCaptionEntries b f := by
  unfold fileCaptionEntries
  rw [getAll_append, List.filterMap_append,
    filterMap_captionOfEntry_allStr f _ (getAll_values_allStr extra f h),
    List.append_nil]

/-- Every appended caption entry is a string stored under the
companion name `<f>Captions`. -/
theorem fileCaptionEntries_shape (b : FormBody) (f : String) :
    ∀ p ∈ fileCaptionEntries b f, p.1 = f ++ "Captions" ∧ p.2.isFile = false := by
  intro p hp
  unfold fileCaptionEntries at hp
  rw [List.mem_filterMap] at hp
  obtain ⟨v, hv, hc⟩ := hp
  cases v with
  | file g =>
    simp only [captionOfEntry, Option.some.injEq] at hc
    rw [← hc]
    exact ⟨rfl, rfl⟩
  | str a => simp [captionOfEntry] at hc

/-- Closed form of the field loop of the body transform: starting from
the original body extended by already-appended (string-valued) caption
entries, the loop appends the caption entries of each processed field,
computed on the original body. -/
theorem foldl_appendCaptionsFor_closed (body : FormBody) (fields : List String) :
    ∀ extra : FormBody, (∀ p ∈ extra, p.2.isFile = false) →
      fields.foldl appendCaptionsFor (body ++ extra) =
        body ++ extra ++ fields.flatMap (fun f => fileCaptionEntries body f) := by
  induction fields with
  | nil => intro extra h; simp
  | cons f fs ih =>
    intro extra hstr
    rw [List.foldl_cons, appendCaptionsFor_eq,
      fileCaptionEntries_append_allStr body extra f hstr, List.append_assoc]
    have hstr2 : ∀ p ∈ extra ++ fileCaptionEntries body f, p.2.isFile = false := by
      intro p hp
      rcases List.mem_append.mp hp with h1 | h2
      · exact hstr p h1
      · exact (fileCaptionEntries_shape body f p h2).2
    rw [ih (extra ++ fileCaptionEntries body f) hstr2]
    simp [List.flatMap_cons]

/-- Closed form of the whole body transform: the original entries stay
in place and the caption entries of each deduplicated file-bearing
field are appended after them. -/
theorem addCaptions_closed (body : FormBody) :
    addCaptions body =
      body ++ (dedupKeepFirst [] (fileFieldNames body)).flatMap
        (fun f => fileCaptionEntries body f) := by
  have h := foldl_appendCaptionsFor_closed body
    (dedupKeepFirst [] (fileFieldNames body)) [] (by intro p hp; simp at hp)
  simpa using h

/-- `getAll` on a body whose entries all share one name. -/
theorem getAll_const_key (l : FormBody) (c k : String)
    (h : ∀ p ∈ l, p.1 = c) :
    getAll l k = if k = c then l.map Prod.snd else [] := by
  induction l with
  | nil => simp [getAll]
  | cons p ps ih =>
    have hp : p.1 = c := h p (by simp)
    have ih2 := ih fun q hq => h q (by simp [hq])
    rw [getAll_cons, ih2, hp]
    by_cases hk : k = c
    · simp [hk]
    · have hck : ¬c = k := fun hck => hk hck.symm
      simp [hk, hck]

/-- `getAll` of the caption entries of one field. -/
theorem getAll_fileCaptionEntries (b : FormBody) (g k : String) :
    getAll (fileCaptionEntries b g) k =
      if k = g ++ "Captions" then (fileCaptionEntries b g).map Prod.snd else [] :=
  getAll_const_key _ _ _ fun p hp => (fileCaptionEntries_shape b g p hp).1

/-- The appended caption values of one field are exactly the captions
of its file entries. -/
theorem map_snd_fileCaptionEntries (b : FormBody) (f : String) :
    (fileCaptionEntries b f).map Prod.snd = (getAll b f).filterMap captionValue := by
  unfold fileCaptionEntries
  rw [List.map_filterMap]
  have h : (fun v => (captionOfEntry f v).map Prod.snd) = captionValue := by
    funext v; cases v <;> rfl
  rw [h]

/-- One appended caption per file entry: the caption list has the same
length as the list of file entries. -/
theorem length_filterMap_captionValue (l : List FDValue) :
    (l.filterMap captionValue).length = (l.filter FDValue.isFile).length := by
  induction l with
  | nil => rfl
  | cons v vs ih =>
    cases v <;> simp [captionValue, FDValue.isFile, List.filter_cons, ih]

/-- Membership in `Array.from(new Set(...))` deduplication. -/
theorem mem_dedupKeepFirst (x : String) (l : List String) : ∀ seen : List String,
    x ∈ dedupKeepFirst seen l ↔ (x ∈ l ∧ x ∉ seen) := by
  induction l with
  | nil => intro seen; simp [dedupKeepFirst]
  | cons a as ih =>
    intro seen
    by_cases ha : a ∈ seen
    · rw [show dedupKeepFirst seen (a :: as) = dedupKeepFirst seen as from by
        simp [dedupKeepFirst, ha]]
      rw [ih seen]
      constructor
      · rintro ⟨h1, h2⟩; exact ⟨by simp [h1], h2⟩
      · rintro ⟨h1, h2⟩
        rcases List.mem_cons.mp h1 with rfl | h3
        · exact absurd ha h2
        · exact ⟨h3, h2⟩
    · rw [show dedupKeepFirst seen (a :: as) = a :: dedupKeepFirst (a :: seen) as from by
        simp [dedupKeepFirst, ha]]
      rw [List.mem_cons, ih (a :: seen)]
      constructor
      · rintro (rfl | ⟨h1, h2⟩)
        · exact ⟨by simp, ha⟩
        · exact ⟨by simp [h1], fun hx => h2 (by simp [hx])⟩
      · rintro ⟨h1, h2⟩
        rcases List.mem_cons.mp h1 with rfl | h3
        · exact Or.inl rfl
        · by_cases hxa : x = a
          · exact Or.inl hxa
          · exact Or.inr ⟨h3, by simp [List.mem_cons, hxa, h2]⟩

/-- The deduplicated field list has no duplicates. -/
theorem nodup_dedupKeepFirst (l : List String) : ∀ seen : List String,
    (dedupKeepFirst seen l).Nodup := by
  induction l with
  | nil => intro seen; simp [dedupKeepFirst]
  | cons a as ih =>
    intro seen
    by_cases ha : a ∈ seen
    · simpa [dedupKeepFirst, ha] using ih seen
    · rw [show dedupKeepFirst seen (a :: as) = a :: dedupKeepFirst (a :: seen) as from by
        simp [dedupKeepFirst, ha]]
      refine List.nodup_cons.mpr ⟨?_, ih (a :: seen)⟩
      rw [mem_dedupKeepFirst]
      rintro ⟨h1, h2⟩
      exact h2 (by simp)

/-- A `flatMap` of everywhere-empty blocks is empty. -/
theorem flatMap_eq_nil_of_forall {β : Type} (L : List String) (V : String → List β)
    (h : ∀ g ∈ L, V g = []) : L.flatMap V = [] := by
  induction L with
  | nil => rfl
  | cons a as ih =>
    rw [List.flatMap_cons, h a (by simp), List.nil_append]
    exact ih fun g hg => h g (by simp [hg])

/-- A `flatMap` whose blocks vanish except at one element of a
duplicate-free list reduces to that block. -/
theorem flatMap_eq_of_single {β : Type} (L : List String) (V : String → List β)
    (f : String) (hnd : L.Nodup) (hf : f ∈ L)
    (hz : ∀ g ∈ L, g ≠ f → V g = []) :
    L.flatMap V = V f := by
  induction L with
  | nil => simp at hf
  | cons a as ih =>
    rw [List.flatMap_cons]
    rcases List.nodup_cons.mp hnd with ⟨hna, hnd2⟩
    by_cases haf : a = f
    · subst haf
      have hz2 : ∀ g ∈ as, V g = [] := by
        intro g hg
        exact hz g (by simp [hg]) fun hgf => hna (hgf ▸ hg)
      rw [flatMap_eq_nil_of_forall as V hz2, List.append_nil]
    · have hf2 : f ∈ as := by
        rcases List.mem_cons.mp hf with rfl | h3
        · exact absurd rfl haf
        · exact h3
      rw [hz a (by simp) haf,
        ih hnd2 hf2 fun g hg hgf => hz g (by simp [hg]) hgf, List.nil_append]

/-- `getAll` distributes over a `flatMap` of bodies. -/
theorem getAll_flatMap (L : List String) (V : String → FormBody) (k : String) :
    getAll (L.flatMap V) k = L.flatMap fun g => getAll (V g) k := by
  induction L with
  | nil => rfl
  | cons a as ih => rw [List.flatMap_cons, List.flatMap_cons, getAll_append, ih]

/-- A field name appears among the collected file-field names exactly
when one of its entries is a `File`. -/
theorem mem_fileFieldNames (body : FormBody) (f : String) :
    f ∈ fileFieldNames body ↔ (getAll body f).any FDValue.isFile = true := by
  simp only [fileFieldNames, getAll, List.mem_map, List.mem_filter, List.any_eq_true,
    decide_eq_true_eq]
  constructor
  · rintro ⟨p, ⟨hp, hfile⟩, rfl⟩
    exact ⟨p.2, ⟨p, ⟨hp, rfl⟩, rfl⟩, hfile⟩
  · rintro ⟨v, ⟨p, ⟨hp, hkey⟩, rfl⟩, hfile⟩
    exact ⟨p, ⟨hp, hfile⟩, hkey⟩

/-- Appending the fixed suffix `"Captions"` is injective. -/
theorem append_captions_cancel {a b : String}
    (h : a ++ "Captions" = b ++ "Captions") : a = b := by
  have hd := congrArg String.data h
  rw [String.data_append, String.data_append] at hd
  exact String.ext (List.append_cancel_right hd)

/-- C4 counterexample: in `bodyCollide` the field `"xCaptions"` holds
no file object, yet the transform changes its entries, because the
companion caption entries of the file field `"x"` are appended under
the colliding name `"xCaptions"`. -/
theorem addCaptions_counterexample :
    ((getAll bodyCollide "xCaptions").all fun v => !v.isFile) = true ∧
    getAll (addCaptions bodyCollide) "xCaptions" ≠ getAll bodyCollide "xCaptions" := by
  constructor
  · decide
  · decide

/-- C4 amended: with `stringify = false`, for every field whose entries
include a file object, a companion `"<field>Captions"` field is
appended to the body, populated with the caption attribute of each file
entry of that field, one appended caption entry per file entry; and
every field of the body whose entries contain no file object and whose
name is not the companion name `"<g>Captions"` of some file-bearing
field `g` keeps its entries completely unmodified. -/
theorem addCaptions_spec (body : FormBody) (f d : String)
    (hfile : (getAll body f).any FDValue.isFile = true)
    (hd : d ∈ body.map Prod.fst)
    (hdnofile : ((getAll body d).all fun v => !v.isFile) = true)
    (hdnocap : ∀ g : String, (getAll body g).any FDValue.isFile = true →
      d ≠ g ++ "Captions") :
    getAll (addCaptions body) (f ++ "Captions") =
      getAll body (f ++ "Captions") ++ (getAll body f).filterMap captionValue ∧
    ((getAll body f).filterMap captionValue).length =
      ((getAll body f).filter FDValue.isFile).length ∧
    getAll (addCaptions body) d = getAll body d := by
  have hclosed := addCaptions_closed body
  have hnd : (dedupKeepFirst [] (fileFieldNames body)).Nodup :=
    nodup_dedupKeepFirst _ []
  have hfmem : f ∈ dedupKeepFirst [] (fileFieldNames body) := by
    rw [mem_dedupKeepFirst]
    exact ⟨(mem_fileFieldNames body f).mpr hfile, by simp⟩
  refine ⟨?_, length_filterMap_captionValue _, ?_⟩
  · rw [hclosed, getAll_append]
    congr 1
    rw [getAll_flatMap,
      flatMap_eq_of_single _ _ f hnd hfmem (by
        intro g hg hgf
        rw [getAll_fileCaptionEntries, if_neg]
        intro hcontra
        exact hgf (append_captions_cancel hcontra).symm),
      getAll_fileCaptionEntries, if_pos rfl, map_snd_fileCaptionEntries]
  · rw [hclosed, getAll_append, getAll_flatMap]
    have hnil : (dedupKeepFirst [] (fileFieldNames body)).flatMap
        (fun g => getAll (fileCaptionEntries body g) d) = [] := by
      apply flatMap_eq_nil_of_forall
      intro g hg
      rw [getAll_fileCaptionEntries, if_neg]
      have hgfile : (getAll body g).any FDValue.isFile = true := by
        rw [← mem_fileFieldNames]
        exact ((mem_dedupKeepFirst g (fileFieldNames body) []).mp hg).1
      exact hdnocap g hgfile
    rw [hnil, List.append_nil]

/-- Witness for the amended C4 on a collision-free two-file body. -/
theorem addCaptions_spec_witness :
    getAll (addCaptions bodyFiles) ("media" ++ "Captions") =
      getAll bodyFiles ("media" ++ "Captions") ++
        (getAll bodyFiles "media").filterMap captionValue ∧
    ((getAll bodyFiles "media").filterMap captionValue).length =
      ((getAll bodyFiles "media").filter FDValue.isFile).length ∧
    getAll (addCaptions bodyFiles) "note" = getAll bodyFiles "note" :=
  addCaptions_spec bodyFiles "media" "note" (by decide) (by decide) (by decide)
    (by
      intro g hg hcontra
      have hlen := congrArg String.length hcontra
      rw [String.length_append] at hlen
      have h1 : ("note" : String).length = 4 := by decide
      have h2 : ("Captions" : String).length = 8 := by decide
      omega)

end StrapiRequest
